import Mathlib

/-!
Shallow embedding of the OCED correlation-model core (`oced_framework.py`):
the entity registry (`add_object`, `add_event`), the temporal-consistency
validator, and the Alloy-format exporter, together with theorems settling
the specification's claims about them.

Modelling conventions: Python `dict`s become insertion-ordered association
lists; Python `set`s of ids become deduplicated lists; `datetime` timestamps
become `Int` with the same total order; the validator's unguarded dictionary
lookup is modelled with `Option`, `none` standing for a `KeyError`.
-/

namespace OCED

inductive ObjectType where
  | CASE | ACTIVITY | RESOURCE | INCIDENT
deriving DecidableEq, Repr

inductive EventType where
  | START | COMPLETE | ASSIGN | ESCALATE | RESOLVE
deriving DecidableEq, Repr

inductive RelationType where
  | HAS_EVENT | INVOLVES | FOLLOWS | ASSIGNED_TO
deriving DecidableEq, Repr

/-- Attribute mappings are semantically opaque to the core; a list of
string pairs models `Dict[str, Any]`. -/
abbrev Attributes := List (String × String)

/-- Mirrors the `Object` dataclass: id, type, attributes, created, optional
deleted timestamp. -/
structure Object where
  id : String
  type : ObjectType
  attributes : Attributes
  created : Int
  deleted : Option Int
deriving DecidableEq, Repr

/-- Mirrors the `Event` dataclass; `linked_objects` is the Python `set` of
object ids, modelled as a duplicate-free list. -/
structure Event where
  id : String
  type : EventType
  timestamp : Int
  attributes : Attributes
  linked_objects : List String
deriving DecidableEq, Repr

/-- Mirrors the `Observe` dataclass: `(event_id, object_id, relation)`. -/
structure Observe where
  event_id : String
  object_id : String
  relation : RelationType
deriving DecidableEq, Repr

/-- Mirrors `OCEDMetaModel.__init__` state: the `objects` and `events`
dictionaries (insertion-ordered association lists), the `observes` list,
`max_observes`, and the `_constraints_violated` log. -/
structure OCEDMetaModel where
  objects : List (String × Object)
  events : List (String × Event)
  observes : List Observe
  max_observes : Nat
  constraints_violated : List String
deriving DecidableEq, Repr

/-- A fresh `OCEDMetaModel(max_observes)`: all collections empty. -/
def OCEDMetaModel.init (max_observes : Nat) : OCEDMetaModel :=
  ⟨[], [], [], max_observes, []⟩

/-- Dictionary lookup on an association list (first matching key). -/
def lookupKey {α : Type} : List (String × α) → String → Option α
  | [], _ => none
  | (k, v) :: rest, key => if k = key then some v else lookupKey rest key

/-- Python `key in dict`. -/
def hasKey {α : Type} (l : List (String × α)) (key : String) : Bool :=
  (lookupKey l key).isSome

/-- Python `set(xs)` on a list of ids: a duplicate-free list with the same
elements. -/
def toSetList : List String → List String
  | [] => []
  | x :: xs => if x ∈ xs then toSetList xs else x :: toSetList xs

/-- Mirrors `OCEDMetaModel.add_object`: reject a duplicate id with one
violation, otherwise insert the object unconditionally. -/
def add_object (m : OCEDMetaModel) (obj_id : String) (obj_type : ObjectType)
    (attributes : Attributes) (created : Int) : OCEDMetaModel × Bool :=
  if hasKey m.objects obj_id then
    ({ m with constraints_violated :=
        m.constraints_violated ++ ["Duplicate object ID: " ++ obj_id] }, false)
  else
    ({ m with objects :=
        m.objects ++ [(obj_id, ⟨obj_id, obj_type, attributes, created, none⟩)] }, true)

/-- A sequence of `add_object` calls, returning the final registry and the
list of returned booleans in call order. -/
def add_objects (m : OCEDMetaModel) :
    List (String × ObjectType × Attributes × Int) → OCEDMetaModel × List Bool
  | [] => (m, [])
  | (obj_id, obj_type, attributes, created) :: rest =>
    let step := add_object m obj_id obj_type attributes created
    let next := add_objects step.1 rest
    (next.1, step.2 :: next.2)

/-- The first id of the list that is not a key of `objects`, if any: mirrors
the `for obj_id in linked_objects: if obj_id not in self.objects` loop. -/
def firstUnknown (objects : List (String × Object)) : List String → Option String
  | [] => none
  | x :: xs => if hasKey objects x then firstUnknown objects xs else some x

/-- Mirrors `OCEDMetaModel.add_event`: duplicate-id check, then linked-object
existence in list order, then the cardinality bound; on success the event is
stored with the deduplicated id set and one Observe record is appended per
element of the input list. -/
def add_event (m : OCEDMetaModel) (event_id : String) (event_type : EventType)
    (timestamp : Int) (attributes : Attributes) (linked_objects : List String) :
    OCEDMetaModel × Bool :=
  if hasKey m.events event_id then
    ({ m with constraints_violated :=
        m.constraints_violated ++ ["Duplicate event ID: " ++ event_id] }, false)
  else
    match firstUnknown m.objects linked_objects with
    | some obj_id =>
      ({ m with constraints_violated :=
          m.constraints_violated ++ ["Unknown object ID: " ++ obj_id] }, false)
    | none =>
      if linked_objects.length > m.max_observes then
        ({ m with constraints_violated := m.constraints_violated ++
            ["Event " ++ event_id ++ " exceeds max observes: "
              ++ toString linked_objects.length ++ " > " ++ toString m.max_observes] },
         false)
      else
        ({ m with
            events := m.events ++
              [(event_id, ⟨event_id, event_type, timestamp, attributes,
                toSetList linked_objects⟩)],
            observes := m.observes ++
              linked_objects.map (fun obj_id => ⟨event_id, obj_id, RelationType.INVOLVES⟩) },
         true)

/-- The violation strings the validator emits for one (event, object) pair:
creation-ordering check, then deletion-ordering check. -/
def pairViolations (event : Event) (obj_id : String) (obj : Object) : List String :=
  (if event.timestamp < obj.created then
    ["Event " ++ event.id ++ " timestamp " ++ toString event.timestamp
      ++ " before object " ++ obj_id ++ " creation " ++ toString obj.created]
  else []) ++
  (match obj.deleted with
  | some d =>
    if event.timestamp > d then
      ["Event " ++ event.id ++ " timestamp " ++ toString event.timestamp
        ++ " after object " ++ obj_id ++ " deletion " ++ toString d]
    else []
  | none => [])

/-- The inner loop of `validate_temporal_consistency` over one event's
linked objects; `none` models a `KeyError` on the unguarded lookup. -/
def eventViolations (objects : List (String × Object)) (event : Event) :
    List String → Option (List String)
  | [] => some []
  | obj_id :: rest =>
    match lookupKey objects obj_id with
    | none => none
    | some obj =>
      match eventViolations objects event rest with
      | none => none
      | some vs => some (pairViolations event obj_id obj ++ vs)

/-- The outer loop of `validate_temporal_consistency` over all events. -/
def allViolations (objects : List (String × Object)) :
    List (String × Event) → Option (List String)
  | [] => some []
  | (_, event) :: rest =>
    match eventViolations objects event event.linked_objects with
    | none => none
    | some vs =>
      match allViolations objects rest with
      | none => none
      | some rest_vs => some (vs ++ rest_vs)

/-- Mirrors `OCEDMetaModel.validate_temporal_consistency`: collect all
violations over every (event, linked object) pair, extend the shared log,
and return whether the collected list is empty. `none` models the
`KeyError` a dangling linked-object id would raise. -/
def validate_temporal_consistency (m : OCEDMetaModel) :
    Option (OCEDMetaModel × Bool) :=
  match allViolations m.objects m.events with
  | none => none
  | some violations =>
    some ({ m with constraints_violated := m.constraints_violated ++ violations },
          violations.length == 0)

/-- Mirrors `OCEDMetaModel.to_alloy_format`: the Alloy text assembled from
object signatures, event signatures, observe facts, temporal constraints and
the scope line with the three counts. -/
def to_alloy_format (m : OCEDMetaModel) : String :=
  ("\n        module OCED_Instance\n\n        open util/ordering[Time]\n\n        sig Time \x7b\x7d\n\n        "
    ++ String.intercalate "\n"
        (m.objects.map (fun p => "one sig Obj_" ++ p.2.id ++ " extends Object \x7b\x7d"))
    ++ "\n\n        "
    ++ String.intercalate "\n"
        (m.events.map (fun p => "one sig Evt_" ++ p.2.id ++ " extends Event \x7b\x7d"))
    ++ "\n\n        "
    ++ String.intercalate "\n"
        (m.observes.map (fun obs =>
          "fact \x7b some obs: Observe | obs.event = Evt_" ++ obs.event_id
            ++ " and obs.object = Obj_" ++ obs.object_id ++ " \x7d"))
    ++ "\n\n        fact TemporalConstraints \x7b\n            "
    ++ String.intercalate "\n"
        ((m.events.map (fun p => p.2.linked_objects.map (fun obj_id =>
          "Evt_" ++ p.2.id ++ ".timestamp in Obj_" ++ obj_id
            ++ ".created.nexts"))).flatten)
    ++ "\n        \x7d\n\n        ")
  ++ ("run \x7b\x7d for exactly "
    ++ toString ((m.events.map (fun p => p.2.timestamp)).dedup.length)
    ++ " Time, exactly " ++ toString m.objects.length
    ++ " Object, exactly " ++ toString m.events.length
    ++ " Event\n        ")

/-- Number of distinct event timestamps, stated spec-side as a finite-set
cardinality (the code computes `len(set(...))`). -/
def numDistinctEventTimestamps (m : OCEDMetaModel) : Nat :=
  (m.events.map (fun p => p.2.timestamp)).toFinset.card

/-- Number of registered objects. -/
def numObjects (m : OCEDMetaModel) : Nat :=
  m.objects.length

/-- Number of registered events. -/
def numEvents (m : OCEDMetaModel) : Nat :=
  m.events.length

/-- Declarative temporal consistency of one (event, object) pair: the event
timestamp is at or after creation and, when a deletion timestamp is set, at
or before it. -/
def PairOk (event : Event) (obj : Object) : Prop :=
  obj.created ≤ event.timestamp ∧
    ∀ d, obj.deleted = some d → event.timestamp ≤ d

/-- Every linked-object id of every stored event resolves in the objects
dictionary. -/
abbrev EventsResolve (m : OCEDMetaModel) : Prop :=
  ∀ p ∈ m.events, ∀ obj_id ∈ p.2.linked_objects, hasKey m.objects obj_id = true

/-- Both endpoints of every Observe record exist in the registry. -/
abbrev ObservesResolve (m : OCEDMetaModel) : Prop :=
  ∀ ob ∈ m.observes,
    hasKey m.events ob.event_id = true ∧ hasKey m.objects ob.object_id = true

/-- Registry states reachable from a fresh `OCEDMetaModel` by any sequence
of `add_object` and `add_event` calls. -/
inductive Reachable : OCEDMetaModel → Prop where
  | init (n : Nat) : Reachable (OCEDMetaModel.init n)
  | addObj (m : OCEDMetaModel) (obj_id : String) (obj_type : ObjectType)
      (attributes : Attributes) (created : Int) :
      Reachable m → Reachable (add_object m obj_id obj_type attributes created).1
  | addEvt (m : OCEDMetaModel) (event_id : String) (event_type : EventType)
      (timestamp : Int) (attributes : Attributes) (linked_objects : List String) :
      Reachable m →
      Reachable (add_event m event_id event_type timestamp attributes linked_objects).1

/-- A concrete registry holding objects `A`, `B`, `C`, all created at time 0. -/
def demoRegistry : OCEDMetaModel :=
  (add_object (add_object (add_object (OCEDMetaModel.init 10)
    "A" ObjectType.CASE [] 0).1
    "B" ObjectType.CASE [] 0).1
    "C" ObjectType.CASE [] 0).1

/-- A concrete registry with a temporal violation: object `O` created at 5,
event `E` linked to `O` with timestamp 3. -/
def demoTemporal : OCEDMetaModel :=
  ⟨[("O", ⟨"O", ObjectType.CASE, [], 5, none⟩)],
   [("E", ⟨"E", EventType.START, 3, [], ["O"]⟩)],
   [⟨"E", "O", RelationType.INVOLVES⟩], 10, []⟩

theorem lookupKey_append {α : Type} (l₁ l₂ : List (String × α)) (k : String) :
    lookupKey (l₁ ++ l₂) k =
      match lookupKey l₁ k with
      | some v => some v
      | none => lookupKey l₂ k := by
  induction l₁ with
  | nil => simp [lookupKey]
  | cons p rest ih =>
    obtain ⟨k', v⟩ := p
    by_cases h : k' = k <;> simp [lookupKey, h, ih]

theorem hasKey_append {α : Type} (l₁ l₂ : List (String × α)) (k : String) :
    hasKey (l₁ ++ l₂) k = (hasKey l₁ k || hasKey l₂ k) := by
  unfold hasKey
  rw [lookupKey_append]
  cases lookupKey l₁ k <;> simp

theorem hasKey_iff_exists {α : Type} (l : List (String × α)) (k : String) :
    hasKey l k = true ↔ ∃ v, lookupKey l k = some v := by
  unfold hasKey
  cases lookupKey l k <;> simp

theorem mem_toSetList (x : String) (l : List String) :
    x ∈ toSetList l ↔ x ∈ l := by
  induction l with
  | nil => simp [toSetList]
  | cons y ys ih =>
    by_cases h : y ∈ ys
    · simp only [toSetList, if_pos h, ih, List.mem_cons]
      constructor
      · exact fun hx => Or.inr hx
      · rintro (rfl | hx)
        · exact h
        · exact hx
    · simp [toSetList, if_neg h, ih]

theorem nodup_toSetList (l : List String) : (toSetList l).Nodup := by
  induction l with
  | nil => simp [toSetList]
  | cons y ys ih =>
    by_cases h : y ∈ ys
    · simpa [toSetList, if_pos h] using ih
    · simp only [toSetList, if_neg h]
      exact List.Nodup.cons (by simpa [mem_toSetList] using h) ih

theorem toFinset_toSetList (l : List String) :
    (toSetList l).toFinset = l.toFinset := by
  ext x
  simp [List.mem_toFinset, mem_toSetList]

theorem firstUnknown_eq_none_iff (objects : List (String × Object)) (l : List String) :
    firstUnknown objects l = none ↔ ∀ x ∈ l, hasKey objects x = true := by
  induction l with
  | nil => simp [firstUnknown]
  | cons y ys ih =>
    by_cases h : hasKey objects y = true
    · simp [firstUnknown, h, ih]
    · simp only [firstUnknown, if_neg h]
      refine ⟨fun hc => by simp at hc, fun hall => absurd (hall y (by simp)) h⟩

theorem firstUnknown_split (objects : List (String × Object))
    (l₁ l₂ : List String) (x : String)
    (h₁ : ∀ y ∈ l₁, hasKey objects y = true) (hx : hasKey objects x = false) :
    firstUnknown objects (l₁ ++ x :: l₂) = some x := by
  induction l₁ with
  | nil => simp [firstUnknown, hx]
  | cons y ys ih =>
    have hy : hasKey objects y = true := h₁ y (by simp)
    simp only [List.cons_append, firstUnknown, hy, if_true]
    exact ih (fun z hz => h₁ z (by simp [hz]))

theorem pairViolations_eq_nil_iff (e : Event) (oid : String) (obj : Object) :
    pairViolations e oid obj = [] ↔ PairOk e obj := by
  unfold pairViolations PairOk
  cases hd : obj.deleted <;> split_ifs <;> simp_all

theorem add_event_dup_eq (m : OCEDMetaModel) (event_id : String)
    (event_type : EventType) (timestamp : Int) (attributes : Attributes)
    (l : List String) (hd : hasKey m.events event_id = true) :
    add_event m event_id event_type timestamp attributes l =
      ({ m with constraints_violated :=
          m.constraints_violated ++ ["Duplicate event ID: " ++ event_id] }, false) := by
  simp [add_event, hd]

theorem add_event_unknown_eq (m : OCEDMetaModel) (event_id : String)
    (event_type : EventType) (timestamp : Int) (attributes : Attributes)
    (l : List String) (x : String) (hd : hasKey m.events event_id = false)
    (hfu : firstUnknown m.objects l = some x) :
    add_event m event_id event_type timestamp attributes l =
      ({ m with constraints_violated :=
          m.constraints_violated ++ ["Unknown object ID: " ++ x] }, false) := by
  simp [add_event, hd, hfu]

theorem add_event_card_eq (m : OCEDMetaModel) (event_id : String)
    (event_type : EventType) (timestamp : Int) (attributes : Attributes)
    (l : List String) (hd : hasKey m.events event_id = false)
    (hfu : firstUnknown m.objects l = none) (hlen : l.length > m.max_observes) :
    add_event m event_id event_type timestamp attributes l =
      ({ m with constraints_violated := m.constraints_violated ++
          ["Event " ++ event_id ++ " exceeds max observes: "
            ++ toString l.length ++ " > " ++ toString m.max_observes] }, false) := by
  simp [add_event, hd, hfu, hlen]

theorem add_event_success_eq (m : OCEDMetaModel) (event_id : String)
    (event_type : EventType) (timestamp : Int) (attributes : Attributes)
    (l : List String) (hd : hasKey m.events event_id = false)
    (hfu : firstUnknown m.objects l = none) (hlen : ¬ l.length > m.max_observes) :
    add_event m event_id event_type timestamp attributes l =
      ({ m with
          events := m.events ++
            [(event_id, ⟨event_id, event_type, timestamp, attributes, toSetList l⟩)],
          observes := m.observes ++
            l.map (fun obj_id => ⟨event_id, obj_id, RelationType.INVOLVES⟩) },
       true) := by
  simp [add_event, hd, hfu, hlen]

theorem eventViolations_total (objects : List (String × Object)) (e : Event)
    (l : List String) (h : ∀ oid ∈ l, hasKey objects oid = true) :
    ∃ vs, eventViolations objects e l = some vs := by
  induction l with
  | nil => exact ⟨[], rfl⟩
  | cons oid rest ih =>
    obtain ⟨obj, hobj⟩ := (hasKey_iff_exists objects oid).mp (h oid (by simp))
    obtain ⟨vs, hvs⟩ := ih (fun x hx => h x (by simp [hx]))
    exact ⟨pairViolations e oid obj ++ vs, by simp [eventViolations, hobj, hvs]⟩

theorem eventViolations_nil_iff (objects : List (String × Object)) (e : Event)
    (l : List String) (vs : List String)
    (h : eventViolations objects e l = some vs) :
    vs = [] ↔
      ∀ oid ∈ l, ∀ obj, lookupKey objects oid = some obj →
        pairViolations e oid obj = [] := by
  induction l generalizing vs with
  | nil =>
    simp only [eventViolations, Option.some.injEq] at h
    simp [← h]
  | cons oid rest ih =>
    simp only [eventViolations] at h
    cases hobj : lookupKey objects oid with
    | none => simp [hobj] at h
    | some obj =>
      rw [hobj] at h
      cases hrest : eventViolations objects e rest with
      | none => simp [hrest] at h
      | some vs' =>
        rw [hrest] at h
        simp only [Option.some.injEq] at h
        subst h
        rw [List.append_eq_nil]
        constructor
        · rintro ⟨hpv, hvs'⟩
          intro x hx obj' hobj'
          rcases List.mem_cons.mp hx with rfl | hx'
          · rw [hobj'] at hobj; cases hobj; exact hpv
          · exact ((ih vs' hrest).mp hvs') x hx' obj' hobj'
        · intro hall
          refine ⟨hall oid (by simp) obj hobj, ?_⟩
          exact (ih vs' hrest).mpr (fun x hx obj' hobj' => hall x (by simp [hx]) obj' hobj')

theorem eventViolations_mem (objects : List (String × Object)) (e : Event)
    (l : List String) (vs : List String) (oid : String) (obj : Object) (s : String)
    (h : eventViolations objects e l = some vs) (hmem : oid ∈ l)
    (hobj : lookupKey objects oid = some obj) (hs : s ∈ pairViolations e oid obj) :
    s ∈ vs := by
  induction l generalizing vs with
  | nil => cases hmem
  | cons y rest ih =>
    simp only [eventViolations] at h
    cases hy : lookupKey objects y with
    | none => simp [hy] at h
    | some objy =>
      rw [hy] at h
      cases hrest : eventViolations objects e rest with
      | none => simp [hrest] at h
      | some vs' =>
        rw [hrest] at h
        simp only [Option.some.injEq] at h
        subst h
        rcases List.mem_cons.mp hmem with rfl | hmem'
        · rw [hobj] at hy; cases hy
          exact List.mem_append_left _ hs
        · exact List.mem_append_right _ (ih vs' hrest hmem')

theorem allViolations_total (objects : List (String × Object))
    (evs : List (String × Event))
    (h : ∀ p ∈ evs, ∀ oid ∈ p.2.linked_objects, hasKey objects oid = true) :
    ∃ vs, allViolations objects evs = some vs := by
  induction evs with
  | nil => exact ⟨[], rfl⟩
  | cons p rest ih =>
    obtain ⟨k, e⟩ := p
    obtain ⟨vs, hvs⟩ :=
      eventViolations_total objects e e.linked_objects (h (k, e) (by simp))
    obtain ⟨vs', hvs'⟩ := ih (fun q hq => h q (by simp [hq]))
    exact ⟨vs ++ vs', by simp [allViolations, hvs, hvs']⟩

theorem allViolations_nil_iff (objects : List (String × Object))
    (evs : List (String × Event)) (vs : List String)
    (h : allViolations objects evs = some vs) :
    vs = [] ↔
      ∀ p ∈ evs, ∀ oid ∈ p.2.linked_objects, ∀ obj,
        lookupKey objects oid = some obj → pairViolations p.2 oid obj = [] := by
  induction evs generalizing vs with
  | nil =>
    simp only [allViolations, Option.some.injEq] at h
    simp [← h]
  | cons p rest ih =>
    obtain ⟨k, e⟩ := p
    simp only [allViolations] at h
    cases he : eventViolations objects e e.linked_objects with
    | none => simp [he] at h
    | some evs' =>
      rw [he] at h
      cases hrest : allViolations objects rest with
      | none => simp [hrest] at h
      | some vs' =>
        rw [hrest] at h
        simp only [Option.some.injEq] at h
        subst h
        rw [List.append_eq_nil]
        constructor
        · rintro ⟨h1, h2⟩
          intro q hq oid hoid obj hobj
          rcases List.mem_cons.mp hq with rfl | hq'
          · exact ((eventViolations_nil_iff objects e _ _ he).mp h1) oid hoid obj hobj
          · exact ((ih vs' hrest).mp h2) q hq' oid hoid obj hobj
        · intro hall
          refine ⟨(eventViolations_nil_iff objects e _ _ he).mpr
            (fun oid hoid obj hobj => hall (k, e) (by simp) oid hoid obj hobj), ?_⟩
          exact (ih vs' hrest).mpr (fun q hq oid hoid obj hobj =>
            hall q (by simp [hq]) oid hoid obj hobj)

theorem allViolations_mem (objects : List (String × Object))
    (evs : List (String × Event)) (vs : List String)
    (k : String) (e : Event) (oid : String) (obj : Object) (s : String)
    (h : allViolations objects evs = some vs) (hmem : (k, e) ∈ evs)
    (hoid : oid ∈ e.linked_objects) (hobj : lookupKey objects oid = some obj)
    (hs : s ∈ pairViolations e oid obj) : s ∈ vs := by
  induction evs generalizing vs with
  | nil => cases hmem
  | cons p rest ih =>
    obtain ⟨k', e'⟩ := p
    simp only [allViolations] at h
    cases he : eventViolations objects e' e'.linked_objects with
    | none => simp [he] at h
    | some evs' =>
      rw [he] at h
      cases hrest : allViolations objects rest with
      | none => simp [hrest] at h
      | some vs' =>
        rw [hrest] at h
        simp only [Option.some.injEq] at h
        subst h
        rcases List.mem_cons.mp hmem with heq | hmem'
        · cases heq
          exact List.mem_append_left _
            (eventViolations_mem objects e e.linked_objects evs' oid obj s he hoid hobj hs)
        · exact List.mem_append_right _ (ih vs' hrest hmem')

/-- C2: whenever `add_event` returns false (duplicate event id, unknown
linked object id, or cardinality exceeded), the registry's objects, events,
and observes collections afterward equal exactly what they were before the
call: no event is inserted and no Observe record is appended. -/
theorem add_event_failure_frame (m : OCEDMetaModel) (event_id : String)
    (event_type : EventType) (timestamp : Int) (attributes : Attributes)
    (l : List String)
    (h : (add_event m event_id event_type timestamp attributes l).2 = false) :
    (add_event m event_id event_type timestamp attributes l).1.objects = m.objects ∧
    (add_event m event_id event_type timestamp attributes l).1.events = m.events ∧
    (add_event m event_id event_type timestamp attributes l).1.observes = m.observes := by
  by_cases hd : hasKey m.events event_id = true
  · rw [add_event_dup_eq m event_id event_type timestamp attributes l hd]
    exact ⟨rfl, rfl, rfl⟩
  · have hd' : hasKey m.events event_id = false := by simpa using hd
    cases hfu : firstUnknown m.objects l with
    | some x =>
      rw [add_event_unknown_eq m event_id event_type timestamp attributes l x hd' hfu]
      exact ⟨rfl, rfl, rfl⟩
    | none =>
      by_cases hlen : l.length > m.max_observes
      · rw [add_event_card_eq m event_id event_type timestamp attributes l hd' hfu hlen]
        exact ⟨rfl, rfl, rfl⟩
      · rw [add_event_success_eq m event_id event_type timestamp attributes l hd' hfu hlen] at h
        simp at h

/-- Witness for C2 at a concrete rejected call (unknown linked object id). -/
theorem add_event_failure_frame_witness :
    (add_event (OCEDMetaModel.init 0) "e" EventType.START 0 [] ["A"]).2 = false ∧
    ((add_event (OCEDMetaModel.init 0) "e" EventType.START 0 [] ["A"]).1.objects =
        (OCEDMetaModel.init 0).objects ∧
      (add_event (OCEDMetaModel.init 0) "e" EventType.START 0 [] ["A"]).1.events =
        (OCEDMetaModel.init 0).events ∧
      (add_event (OCEDMetaModel.init 0) "e" EventType.START 0 [] ["A"]).1.observes =
        (OCEDMetaModel.init 0).observes) :=
  ⟨by decide,
   add_event_failure_frame (OCEDMetaModel.init 0) "e" EventType.START 0 [] ["A"] (by decide)⟩

/-- C9: `validate_temporal_consistency` never mutates the registry's entity
state: the objects map, events map, observes list, and `max_observes` are
unchanged; only the violation log may grow (by some appended suffix). -/
theorem validate_temporal_frame (m m' : OCEDMetaModel) (b : Bool)
    (h : validate_temporal_consistency m = some (m', b)) :
    m'.objects = m.objects ∧ m'.events = m.events ∧ m'.observes = m.observes ∧
    m'.max_observes = m.max_observes ∧
    ∃ vs, m'.constraints_violated = m.constraints_violated ++ vs := by
  unfold validate_temporal_consistency at h
  cases hav : allViolations m.objects m.events with
  | none => rw [hav] at h; cases h
  | some vs =>
    rw [hav] at h
    simp only [Option.some.injEq, Prod.mk.injEq] at h
    obtain ⟨hm, -⟩ := h
    subst hm
    exact ⟨rfl, rfl, rfl, rfl, vs, rfl⟩

/-- Witness for C9 at a concrete registry. -/
theorem validate_temporal_frame_witness :
    validate_temporal_consistency (OCEDMetaModel.init 0) =
      some (OCEDMetaModel.init 0, true) ∧
    ((OCEDMetaModel.init 0).objects = (OCEDMetaModel.init 0).objects ∧
      (OCEDMetaModel.init 0).events = (OCEDMetaModel.init 0).events ∧
      (OCEDMetaModel.init 0).observes = (OCEDMetaModel.init 0).observes ∧
      (OCEDMetaModel.init 0).max_observes = (OCEDMetaModel.init 0).max_observes ∧
      ∃ vs, (OCEDMetaModel.init 0).constraints_violated =
        (OCEDMetaModel.init 0).constraints_violated ++ vs) :=
  ⟨by decide,
   validate_temporal_frame (OCEDMetaModel.init 0) (OCEDMetaModel.init 0) true (by decide)⟩

/-- C7: timestamp comparisons are non-strict at both boundaries: when the
event timestamp is at or after the object's creation and, if a deletion
timestamp is set, at or before it, the validator emits no violation for the
(event, object) pair; in particular exact equality at either boundary is
valid. -/
theorem pairViolations_boundary_ok (e : Event) (oid : String) (obj : Object)
    (h1 : obj.created ≤ e.timestamp)
    (h2 : ∀ d, obj.deleted = some d → e.timestamp ≤ d) :
    pairViolations e oid obj = [] := by
  rw [pairViolations_eq_nil_iff]
  exact ⟨h1, h2⟩

/-- Witness for C7 at an event whose timestamp equals both the creation and
the deletion timestamp of the linked object. -/
theorem pairViolations_boundary_ok_witness :
    ((⟨"O", ObjectType.CASE, [], 3, some 3⟩ : Object).created ≤
        (⟨"E", EventType.START, 3, [], ["O"]⟩ : Event).timestamp) ∧
    pairViolations ⟨"E", EventType.START, 3, [], ["O"]⟩ "O"
      ⟨"O", ObjectType.CASE, [], 3, some 3⟩ = [] :=
  ⟨by decide,
   pairViolations_boundary_ok ⟨"E", EventType.START, 3, [], ["O"]⟩ "O"
     ⟨"O", ObjectType.CASE, [], 3, some 3⟩ (by decide)
     (fun d hd => le_of_eq (Option.some.inj hd))⟩

/-- C5: on a registry whose linked-object ids all resolve,
`validate_temporal_consistency` succeeds, appends all violations found in
this run to the shared violation log, and returns true iff zero new
violations were found, which holds iff every (event, linked object) pair
satisfies both temporal conditions (no short-circuiting). -/
theorem validate_temporal_spec (m : OCEDMetaModel) (h : EventsResolve m) :
    ∃ m' b, validate_temporal_consistency m = some (m', b) ∧
      (∃ vs, m'.constraints_violated = m.constraints_violated ++ vs ∧
        (b = true ↔ vs = [])) ∧
      (b = true ↔ ∀ p ∈ m.events, ∀ oid ∈ p.2.linked_objects, ∀ obj,
        lookupKey m.objects oid = some obj → PairOk p.2 obj) := by
  obtain ⟨vs, hvs⟩ := allViolations_total m.objects m.events h
  have hb : ((vs.length == 0) = true) ↔ vs = [] := by
    simp [List.length_eq_zero]
  refine ⟨{ m with constraints_violated := m.constraints_violated ++ vs },
    vs.length == 0, ?_, ⟨vs, rfl, hb⟩, ?_⟩
  · simp [validate_temporal_consistency, hvs]
  · rw [hb, allViolations_nil_iff m.objects m.events vs hvs]
    simp only [pairViolations_eq_nil_iff]

/-- Witness for C5 at a concrete registry with one temporal violation. -/
theorem validate_temporal_spec_witness :
    EventsResolve demoTemporal ∧
    (∃ m' b, validate_temporal_consistency demoTemporal = some (m', b) ∧
      (∃ vs, m'.constraints_violated = demoTemporal.constraints_violated ++ vs ∧
        (b = true ↔ vs = [])) ∧
      (b = true ↔ ∀ p ∈ demoTemporal.events, ∀ oid ∈ p.2.linked_objects, ∀ obj,
        lookupKey demoTemporal.objects oid = some obj → PairOk p.2 obj)) :=
  ⟨by decide, validate_temporal_spec demoTemporal (by decide)⟩

/-- C6: for an object created at `t0` and a linked event with timestamp
`t1 < t0`, the validator returns false and the log afterward contains the
creation-ordering violation string naming the event, the object, and both
timestamps. -/
theorem validate_temporal_past_violation (m : OCEDMetaModel)
    (h : EventsResolve m) (k oid : String) (e : Event) (obj : Object)
    (hmem : (k, e) ∈ m.events) (hoid : oid ∈ e.linked_objects)
    (hobj : lookupKey m.objects oid = some obj)
    (hlt : e.timestamp < obj.created) :
    ∃ m', validate_temporal_consistency m = some (m', false) ∧
      ("Event " ++ e.id ++ " timestamp " ++ toString e.timestamp
        ++ " before object " ++ oid ++ " creation " ++ toString obj.created)
        ∈ m'.constraints_violated := by
  obtain ⟨vs, hvs⟩ := allViolations_total m.objects m.events h
  have hs : ("Event " ++ e.id ++ " timestamp " ++ toString e.timestamp
      ++ " before object " ++ oid ++ " creation " ++ toString obj.created)
      ∈ pairViolations e oid obj := by
    unfold pairViolations
    rw [if_pos hlt]
    exact List.mem_append_left _ (by simp)
  have hmemvs := allViolations_mem m.objects m.events vs k e oid obj _ hvs hmem hoid hobj hs
  have hlen : (vs.length == 0) = false := by
    cases vs with
    | nil => cases hmemvs
    | cons a t => rfl
  refine ⟨{ m with constraints_violated := m.constraints_violated ++ vs }, ?_, ?_⟩
  · simp [validate_temporal_consistency, hvs, hlen]
  · exact List.mem_append_right _ hmemvs

/-- Witness for C6 at the concrete registry `demoTemporal` (object created
at 5, linked event at 3). -/
theorem validate_temporal_past_violation_witness :
    EventsResolve demoTemporal ∧
    (∃ m', validate_temporal_consistency demoTemporal = some (m', false) ∧
      ("Event " ++ "E" ++ " timestamp " ++ toString (3 : Int)
        ++ " before object " ++ "O" ++ " creation " ++ toString (5 : Int))
        ∈ m'.constraints_violated) :=
  ⟨by decide,
   validate_temporal_past_violation demoTemporal (by decide) "E" "O"
     ⟨"E", EventType.START, 3, [], ["O"]⟩ ⟨"O", ObjectType.CASE, [], 5, none⟩
     (by decide) (by decide) (by decide) (by decide)⟩

/-- C1 counterexample: a successful `add_event` whose input list has
distinct-id set `{A, B, C}` but contains a duplicate occurrence appends four
Observe records, not three — the code appends one record per list element,
so the claimed "exactly three regardless of duplicates" is false. -/
theorem add_event_dup_input_counterexample :
    (add_event demoRegistry "e" EventType.START 1 [] ["A", "B", "C", "A"]).2 = true ∧
    (["A", "B", "C", "A"] : List String).toFinset = ({"A", "B", "C"} : Finset String) ∧
    demoRegistry.observes = [] ∧
    (add_event demoRegistry "e" EventType.START 1 [] ["A", "B", "C", "A"]).1.observes.length = 4 ∧
    ¬ (add_event demoRegistry "e" EventType.START 1 [] ["A", "B", "C", "A"]).1.observes.length = 3 := by
  refine ⟨by decide, by decide, by decide, by decide, by decide⟩

/-- C1 (amended): every successful `add_event` appends exactly one Observe
record `(event_id, x, INVOLVES)` per occurrence of `x` in the input list —
exactly three when the list has distinct ids `{A, B, C}` — and stores the
event under its id with `linked_objects` the duplicate-free set of the
input ids, regardless of input order or duplicates. -/
theorem add_event_observes_per_occurrence (m : OCEDMetaModel) (event_id : String)
    (event_type : EventType) (timestamp : Int) (attributes : Attributes)
    (l : List String)
    (h : (add_event m event_id event_type timestamp attributes l).2 = true) :
    (add_event m event_id event_type timestamp attributes l).1.observes =
      m.observes ++ l.map (fun x => ⟨event_id, x, RelationType.INVOLVES⟩) ∧
    lookupKey (add_event m event_id event_type timestamp attributes l).1.events event_id =
      some ⟨event_id, event_type, timestamp, attributes, toSetList l⟩ ∧
    (toSetList l).toFinset = l.toFinset ∧ (toSetList l).Nodup := by
  by_cases hd : hasKey m.events event_id = true
  · rw [add_event_dup_eq m event_id event_type timestamp attributes l hd] at h
    simp at h
  · have hd' : hasKey m.events event_id = false := by simpa using hd
    cases hfu : firstUnknown m.objects l with
    | some x =>
      rw [add_event_unknown_eq m event_id event_type timestamp attributes l x hd' hfu] at h
      simp at h
    | none =>
      by_cases hlen : l.length > m.max_observes
      · rw [add_event_card_eq m event_id event_type timestamp attributes l hd' hfu hlen] at h
        simp at h
      · rw [add_event_success_eq m event_id event_type timestamp attributes l hd' hfu hlen]
        refine ⟨rfl, ?_, toFinset_toSetList l, nodup_toSetList l⟩
        have hnone : lookupKey m.events event_id = none := by
          unfold hasKey at hd'
          cases hlk : lookupKey m.events event_id with
          | none => rfl
          | some v => rw [hlk] at hd'; cases hd'
        rw [lookupKey_append, hnone]
        simp [lookupKey]

/-- Witness for C1 (amended) at a concrete duplicate-free input list with
id set `{A, B, C}`. -/
theorem add_event_observes_per_occurrence_witness :
    (add_event demoRegistry "e" EventType.START 1 [] ["C", "A", "B"]).2 = true ∧
    ((add_event demoRegistry "e" EventType.START 1 [] ["C", "A", "B"]).1.observes =
        demoRegistry.observes ++
          ["C", "A", "B"].map (fun x => ⟨"e", x, RelationType.INVOLVES⟩) ∧
      lookupKey (add_event demoRegistry "e" EventType.START 1 [] ["C", "A", "B"]).1.events "e" =
        some ⟨"e", EventType.START, 1, [], toSetList ["C", "A", "B"]⟩ ∧
      (toSetList ["C", "A", "B"]).toFinset = (["C", "A", "B"] : List String).toFinset ∧
      (toSetList ["C", "A", "B"]).Nodup) :=
  ⟨by decide,
   add_event_observes_per_occurrence demoRegistry "e" EventType.START 1 [] ["C", "A", "B"]
     (by decide)⟩

/-- C3: `add_event` validates in a fixed short-circuit order — duplicate
event id first, then each linked id in the given order failing on the first
unknown one, then the cardinality bound — each failure appending exactly the
one violation string for that failure kind, and only when all three checks
pass is the event inserted (with no violation appended). -/
theorem add_event_validation_order (m : OCEDMetaModel) (event_id : String)
    (event_type : EventType) (timestamp : Int) (attributes : Attributes)
    (l : List String) :
    (hasKey m.events event_id = true →
      add_event m event_id event_type timestamp attributes l =
        ({ m with constraints_violated :=
            m.constraints_violated ++ ["Duplicate event ID: " ++ event_id] }, false)) ∧
    (∀ before x rest, l = before ++ x :: rest →
      hasKey m.events event_id = false →
      (∀ y ∈ before, hasKey m.objects y = true) → hasKey m.objects x = false →
      add_event m event_id event_type timestamp attributes l =
        ({ m with constraints_violated :=
            m.constraints_violated ++ ["Unknown object ID: " ++ x] }, false)) ∧
    (hasKey m.events event_id = false → (∀ y ∈ l, hasKey m.objects y = true) →
      l.length > m.max_observes →
      add_event m event_id event_type timestamp attributes l =
        ({ m with constraints_violated := m.constraints_violated ++
            ["Event " ++ event_id ++ " exceeds max observes: "
              ++ toString l.length ++ " > " ++ toString m.max_observes] }, false)) ∧
    (hasKey m.events event_id = false → (∀ y ∈ l, hasKey m.objects y = true) →
      l.length ≤ m.max_observes →
      (add_event m event_id event_type timestamp attributes l).2 = true ∧
      hasKey (add_event m event_id event_type timestamp attributes l).1.events event_id = true ∧
      (add_event m event_id event_type timestamp attributes l).1.constraints_violated =
        m.constraints_violated) := by
  refine ⟨fun hd => add_event_dup_eq m event_id event_type timestamp attributes l hd,
    ?_, ?_, ?_⟩
  · intro before x rest hsplit hd hall hx
    subst hsplit
    exact add_event_unknown_eq m event_id event_type timestamp attributes _ x hd
      (firstUnknown_split m.objects before rest x hall hx)
  · intro hd hall hlen
    exact add_event_card_eq m event_id event_type timestamp attributes l hd
      ((firstUnknown_eq_none_iff m.objects l).mpr hall) hlen
  · intro hd hall hlen
    rw [add_event_success_eq m event_id event_type timestamp attributes l hd
      ((firstUnknown_eq_none_iff m.objects l).mpr hall) (by omega)]
    refine ⟨rfl, ?_, rfl⟩
    rw [hasKey_append]
    simp [hasKey, lookupKey]

/-- Witness for C3 at a concrete call rejected on the first unknown linked
id: `A` exists, `Z` does not. -/
theorem add_event_validation_order_witness :
    add_event demoRegistry "e" EventType.START 1 [] ["A", "Z"] =
      ({ demoRegistry with constraints_violated :=
          demoRegistry.constraints_violated ++ ["Unknown object ID: " ++ "Z"] }, false) :=
  (add_event_validation_order demoRegistry "e" EventType.START 1 [] ["A", "Z"]).2.1
    ["A"] "Z" [] rfl (by decide) (by decide) (by decide)

theorem add_objects_fresh (inputs : List (String × ObjectType × Attributes × Int))
    (m : OCEDMetaModel)
    (hnodup : (inputs.map (fun q => q.1)).Nodup)
    (hfresh : ∀ q ∈ inputs, hasKey m.objects q.1 = false) :
    (∀ b ∈ (add_objects m inputs).2, b = true) ∧
    (add_objects m inputs).1.objects =
      m.objects ++ inputs.map (fun q => (q.1, ⟨q.1, q.2.1, q.2.2.1, q.2.2.2, none⟩)) := by
  induction inputs generalizing m with
  | nil => simp [add_objects]
  | cons q rest ih =>
    obtain ⟨qid, qty, qat, qc⟩ := q
    have hq : hasKey m.objects qid = false := hfresh (qid, qty, qat, qc) (by simp)
    have hstep : add_object m qid qty qat qc =
        ({ m with objects := m.objects ++ [(qid, ⟨qid, qty, qat, qc, none⟩)] }, true) := by
      simp [add_object, hq]
    have hnodup' : (rest.map (fun q => q.1)).Nodup :=
      (List.nodup_cons.mp (by simpa using hnodup)).2
    have hqid : qid ∉ rest.map (fun q => q.1) :=
      (List.nodup_cons.mp (by simpa using hnodup)).1
    have hfresh' : ∀ r ∈ rest,
        hasKey (m.objects ++ [(qid, ⟨qid, qty, qat, qc, none⟩)]) r.1 = false := by
      intro r hr
      rw [hasKey_append]
      have h1 : hasKey m.objects r.1 = false := hfresh r (by simp [hr])
      have hne : qid ≠ r.1 := by
        intro he
        exact hqid (he ▸ List.mem_map.mpr ⟨r, hr, rfl⟩)
      have h2 : hasKey [(qid, (⟨qid, qty, qat, qc, none⟩ : Object))] r.1 = false := by
        simp [hasKey, lookupKey, hne]
      rw [h1, h2]
      rfl
    obtain ⟨ihb, ihobj⟩ :=
      ih { m with objects := m.objects ++ [(qid, ⟨qid, qty, qat, qc, none⟩)] }
        hnodup' hfresh'
    constructor
    · intro b hb
      unfold add_objects at hb
      rw [hstep] at hb
      rcases List.mem_cons.mp hb with rfl | hb'
      · rfl
      · exact ihb b hb'
    · unfold add_objects
      rw [hstep]
      rw [ihobj]
      simp

/-- C4: `add_object` returns false and appends exactly one violation iff its
id is already registered, leaving the object set unchanged; otherwise it
returns true and inserts the object with no other validation; consequently
every sequence of `add_object` calls with pairwise-distinct ids on a fresh
registry all succeed and the registry afterward contains exactly those
objects. -/
theorem add_object_spec (m : OCEDMetaModel) (obj_id : String)
    (obj_type : ObjectType) (attributes : Attributes) (created : Int) (n : Nat)
    (inputs : List (String × ObjectType × Attributes × Int))
    (hnodup : (inputs.map (fun q => q.1)).Nodup) :
    ((add_object m obj_id obj_type attributes created).2 = false ↔
      hasKey m.objects obj_id = true) ∧
    ((add_object m obj_id obj_type attributes created).2 = false →
      (add_object m obj_id obj_type attributes created).1.objects = m.objects ∧
      (add_object m obj_id obj_type attributes created).1.constraints_violated =
        m.constraints_violated ++ ["Duplicate object ID: " ++ obj_id]) ∧
    ((add_object m obj_id obj_type attributes created).2 = true →
      (add_object m obj_id obj_type attributes created).1.objects =
        m.objects ++ [(obj_id, ⟨obj_id, obj_type, attributes, created, none⟩)] ∧
      (add_object m obj_id obj_type attributes created).1.constraints_violated =
        m.constraints_violated) ∧
    ((∀ b ∈ (add_objects (OCEDMetaModel.init n) inputs).2, b = true) ∧
      (add_objects (OCEDMetaModel.init n) inputs).1.objects =
        inputs.map (fun q => (q.1, ⟨q.1, q.2.1, q.2.2.1, q.2.2.2, none⟩))) := by
  refine ⟨?_, ?_, ?_, ?_⟩
  · by_cases hd : hasKey m.objects obj_id = true <;> simp [add_object, hd]
  · intro hfail
    by_cases hd : hasKey m.objects obj_id = true
    · simp [add_object, hd]
    · simp [add_object, hd] at hfail
  · intro hok
    by_cases hd : hasKey m.objects obj_id = true
    · simp [add_object, hd] at hok
    · simp [add_object, hd]
  · have := add_objects_fresh inputs (OCEDMetaModel.init n) hnodup
      (fun q hq => rfl)
    simpa [OCEDMetaModel.init] using this

/-- Witness for C4 at a concrete two-element sequence with distinct ids. -/
theorem add_object_spec_witness :
    (∀ b ∈ (add_objects (OCEDMetaModel.init 10)
        [("a", ObjectType.CASE, [], 0), ("b", ObjectType.RESOURCE, [], 1)]).2,
      b = true) ∧
    (add_objects (OCEDMetaModel.init 10)
        [("a", ObjectType.CASE, [], 0), ("b", ObjectType.RESOURCE, [], 1)]).1.objects =
      [("a", ⟨"a", ObjectType.CASE, [], 0, none⟩),
       ("b", ⟨"b", ObjectType.RESOURCE, [], 1, none⟩)] :=
  (add_object_spec (OCEDMetaModel.init 10) "a" ObjectType.CASE [] 0 10
    [("a", ObjectType.CASE, [], 0), ("b", ObjectType.RESOURCE, [], 1)]
    (by decide)).2.2.2

/-- C8: the Alloy export is a pure function of the registry state, so
exporting the same unchanged state twice yields identical text, and the
output ends with the scope declaration sized to exactly the number of
distinct event timestamps, the number of objects, and the number of
events. -/
theorem to_alloy_deterministic_scope (m : OCEDMetaModel) :
    to_alloy_format m = to_alloy_format m ∧
    ∃ pre, to_alloy_format m =
      pre ++ ("run \x7b\x7d for exactly " ++ toString (numDistinctEventTimestamps m)
        ++ " Time, exactly " ++ toString (numObjects m)
        ++ " Object, exactly " ++ toString (numEvents m) ++ " Event\n        ") := by
  refine ⟨rfl, ?_⟩
  unfold to_alloy_format numDistinctEventTimestamps numObjects numEvents
  rw [List.card_toFinset]
  exact ⟨_, rfl⟩

theorem hasKey_mono {α : Type} (l tail : List (String × α)) (k : String)
    (h : hasKey l k = true) : hasKey (l ++ tail) k = true := by
  rw [hasKey_append, h]
  rfl

theorem reachable_resolves (m : OCEDMetaModel) (h : Reachable m) :
    EventsResolve m ∧ ObservesResolve m := by
  induction h with
  | init n =>
    constructor
    · intro p hp
      cases hp
    · intro ob hob
      cases hob
  | addObj m' obj_id obj_type attrs created hr ih =>
    obtain ⟨ihE, ihO⟩ := ih
    by_cases hd : hasKey m'.objects obj_id = true
    · have hstep : add_object m' obj_id obj_type attrs created =
          ({ m' with constraints_violated :=
              m'.constraints_violated ++ ["Duplicate object ID: " ++ obj_id] }, false) := by
        simp [add_object, hd]
      rw [hstep]
      exact ⟨ihE, ihO⟩
    · have hd' : hasKey m'.objects obj_id = false := by simpa using hd
      have hstep : add_object m' obj_id obj_type attrs created =
          ({ m' with objects :=
              m'.objects ++ [(obj_id, ⟨obj_id, obj_type, attrs, created, none⟩)] }, true) := by
        simp [add_object, hd']
      rw [hstep]
      constructor
      · intro p hp x hx
        exact hasKey_mono _ _ _ (ihE p hp x hx)
      · intro ob hob
        exact ⟨(ihO ob hob).1, hasKey_mono _ _ _ (ihO ob hob).2⟩
  | addEvt m' event_id event_type timestamp attrs l hr ih =>
    obtain ⟨ihE, ihO⟩ := ih
    by_cases hd : hasKey m'.events event_id = true
    · rw [add_event_dup_eq m' event_id event_type timestamp attrs l hd]
      exact ⟨ihE, ihO⟩
    · have hd' : hasKey m'.events event_id = false := by simpa using hd
      cases hfu : firstUnknown m'.objects l with
      | some x =>
        rw [add_event_unknown_eq m' event_id event_type timestamp attrs l x hd' hfu]
        exact ⟨ihE, ihO⟩
      | none =>
        by_cases hlen : l.length > m'.max_observes
        · rw [add_event_card_eq m' event_id event_type timestamp attrs l hd' hfu hlen]
          exact ⟨ihE, ihO⟩
        · rw [add_event_success_eq m' event_id event_type timestamp attrs l hd' hfu hlen]
          have hall : ∀ x ∈ l, hasKey m'.objects x = true :=
            (firstUnknown_eq_none_iff m'.objects l).mp hfu
          constructor
          · intro p hp x hx
            rcases List.mem_append.mp hp with hp' | hp'
            · exact ihE p hp' x hx
            · have hpe := List.mem_singleton.mp hp'
              subst hpe
              exact hall x ((mem_toSetList x l).mp hx)
          · intro ob hob
            rcases List.mem_append.mp hob with hob' | hob'
            · exact ⟨hasKey_mono _ _ _ (ihO ob hob').1, (ihO ob hob').2⟩
            · obtain ⟨x, hx, rfl⟩ := List.mem_map.mp hob'
              refine ⟨?_, hall x hx⟩
              rw [hasKey_append]
              have hone : hasKey
                  [(event_id, (⟨event_id, event_type, timestamp, attrs,
                    toSetList l⟩ : Event))] event_id = true := by
                simp [hasKey, lookupKey]
              rw [hone]
              simp

/-- C10: referential integrity is an invariant of every reachable registry
state: every linked-object id of every stored event is a key of the objects
map, both endpoints of every Observe record exist, and consequently the
validator's unguarded lookups never fail (it always returns a result). -/
theorem reachable_referential_integrity (m : OCEDMetaModel) (h : Reachable m) :
    EventsResolve m ∧ ObservesResolve m ∧
    (validate_temporal_consistency m).isSome = true := by
  obtain ⟨hE, hO⟩ := reachable_resolves m h
  obtain ⟨vs, hvs⟩ := allViolations_total m.objects m.events hE
  exact ⟨hE, hO, by simp [validate_temporal_consistency, hvs]⟩

/-- Witness for C10 at a concrete reachable state built by three object
insertions followed by one event insertion. -/
theorem reachable_referential_integrity_witness :
    EventsResolve (add_event demoRegistry "e" EventType.START 1 [] ["A", "B"]).1 ∧
    ObservesResolve (add_event demoRegistry "e" EventType.START 1 [] ["A", "B"]).1 ∧
    (validate_temporal_consistency
      (add_event demoRegistry "e" EventType.START 1 [] ["A", "B"]).1).isSome = true :=
  reachable_referential_integrity _
    (Reachable.addEvt demoRegistry "e" EventType.START 1 [] ["A", "B"]
      (Reachable.addObj _ "C" ObjectType.CASE [] 0
        (Reachable.addObj _ "B" ObjectType.CASE [] 0
          (Reachable.addObj _ "A" ObjectType.CASE [] 0 (Reachable.init 10)))))

end OCED
